import Mathlib

/-
Shallow embedding of the youtube-factcheck repository core:
the proxy pool manager (swiftshadow port under src/unnamed) and the
transcript retrieval pipeline (src/src/lib/youtube-transcript/src).
Each definition is translated from the TypeScript source named in its
doc comment.  Machine numbers are modelled as Nat/Int; JavaScript
floating point values produced by parseFloat are modelled exactly as
rationals (every numeric literal compared in a theorem below is exactly
representable as a double, so the models agree with the code there),
with NaN and Infinity as explicit constructors.
-/

deriving instance DecidableEq for Except

namespace FactCheck

/-! ## Proxy value and helpers (src/unnamed/part_007 models, part_004 helpers) -/

/-- Proxy protocol, source type ProxyProtocol = http | https. -/
inductive Protocol
  | http
  | https
deriving DecidableEq

/-- Rendering of the protocol in template strings. -/
def Protocol.str : Protocol → String
  | .http => "http"
  | .https => "https"

/-- Proxy record, source class Proxy with fields ip, protocol, port. -/
structure Proxy where
  ip : String
  protocol : Protocol
  port : Nat
deriving DecidableEq

/-- Source Proxy.asString: protocol ":" "//" ip ":" port. -/
def Proxy.asString (p : Proxy) : String :=
  p.protocol.str ++ "://" ++ p.ip ++ ":" ++ toString p.port

/-- Loop body of source deduplicateProxies (part_004): a seen set of
address strings, keep the first proxy for each address. -/
def deduplicateProxiesAux (seen : List String) : List Proxy → List Proxy
  | [] => []
  | p :: ps =>
    if p.asString ∈ seen then deduplicateProxiesAux seen ps
    else p :: deduplicateProxiesAux (p.asString :: seen) ps

/-- Source deduplicateProxies (part_004 lines 90 to 102). -/
def deduplicateProxies (proxies : List Proxy) : List Proxy :=
  deduplicateProxiesAux [] proxies

/-- Model of the JavaScript String.toUpperCase for the ASCII country
codes this repository uses. -/
def jsToUpper (s : String) : String :=
  ⟨s.data.map Char.toUpper⟩

/-- Source normalizeCountries (part_004 lines 45 to 47): uppercase each
entry; the list is NOT sorted. -/
def normalizeCountries (countries : List String) : List String :=
  countries.map jsToUpper

/-- Fingerprint built in the ProxyInterface constructor (part_007 line
160): template string of maxProxies, protocol and the joined normalized
country list. -/
def configStringOf (maxProxies : Nat) (protocol : Protocol)
    (normalizedCountries : List String) : String :=
  toString maxProxies ++ protocol.str ++ String.join normalizedCountries

/-! ## Cache expiry (src/unnamed/part_003) -/

/-- Source checkExpiry: Date.now() at or past the expiry time means the
record is stale.  Times are epoch milliseconds. -/
def checkExpiry (now : Int) (expiryTime : Int) : Bool :=
  expiryTime ≤ now

/-- Source getExpiry: now plus the time-to-live in minutes. -/
def getExpiry (now : Int) (timeToLiveMinutes : Int) : Int :=
  now + timeToLiveMinutes * 60000

/-! ## Pool state and refresh (src/unnamed/part_007, class ProxyInterface) -/

/-- Persisted cache record, source type CacheData.  The expiryIn field
holds the parsed time of the stored ISO string; none models an invalid
date (NaN from the Date constructor). -/
structure CacheData where
  expiryIn : Option Int
  configString : String
  proxies : List Proxy
deriving DecidableEq

/-- One registered provider, source type Provider.  The result field
models what its providerFunction returns during the refresh being
analysed (the functions themselves are network fetchers). -/
structure Provider where
  countryFilter : Bool
  protocols : List Protocol
  result : List Proxy
deriving DecidableEq

/-- The fields of class ProxyInterface that the refresh logic reads and
writes.  countries is stored already normalized, as the constructor
does. -/
structure PoolState where
  countries : List String
  protocol : Protocol
  providers : List Provider
  maxProxies : Nat
  cachePeriod : Int
  configString : String
  proxyList : List Proxy
  proxies : List Proxy
  current : Option Proxy
  cacheExpiry : Option Int
deriving DecidableEq

/-- Source ProxyInterface.loadCache (part_007 lines 200 to 234).  A
none cacheFile models a missing or unreadable cache file (the catch
branch).  A record is used only when the fingerprint matches, the
stored expiry parses, and checkExpiry is false. -/
def loadCache (now : Int) (cacheFile : Option CacheData) (st : PoolState) : PoolState :=
  match cacheFile with
  | none => st
  | some cache =>
    if st.configString ≠ cache.configString then st
    else
      match cache.expiryIn with
      | none => st
      | some expiryTime =>
        if !checkExpiry now expiryTime then
          { st with
              proxies := cache.proxies,
              current := cache.proxies.head?,
              cacheExpiry := some expiryTime }
        else st

/-- Provider aggregation loop of ProxyInterface.update (part_007 lines
255 to 273): skip providers outside their declared capability, append
each eligible result, stop once the accumulated count reaches
maxProxies.  No truncation happens afterwards. -/
def runProviders (countries : List String) (protocol : Protocol) (maxProxies : Nat) :
    List Provider → List Proxy → List Proxy
  | [], acc => acc
  | provider :: rest, acc =>
    if protocol ∉ provider.protocols then
      runProviders countries protocol maxProxies rest acc
    else if countries ≠ [] ∧ provider.countryFilter = false then
      runProviders countries protocol maxProxies rest acc
    else
      let acc2 := acc ++ provider.result
      if maxProxies ≤ acc2.length then acc2
      else runProviders countries protocol maxProxies rest acc2

/-- Failure of a refresh, source throw sites in update (part_007 lines
275 to 282): no proxies found, with an https specific hint. -/
inductive UpdateError
  | noProxiesFound (httpsHint : Bool)
deriving DecidableEq

/-- Source ProxyInterface.update (part_007 lines 236 to 294): reset,
static list short circuit (filter to the protocol, dedup, slice to
maxProxies), else cache load, else provider aggregation followed by
dedup and a cache write whose expiry is getExpiry of cachePeriod. -/
def update (now : Int) (cacheFile : Option CacheData) (st0 : PoolState) :
    Except UpdateError PoolState :=
  let st := { st0 with proxies := ([] : List Proxy), current := none, cacheExpiry := none }
  let staticFiltered := st.proxyList.filter (fun p => p.protocol = st.protocol)
  if st.proxyList ≠ [] ∧ staticFiltered ≠ [] then
    let px := (deduplicateProxies staticFiltered).take st.maxProxies
    .ok { st with proxies := px, current := px.head? }
  else
    let st1 := loadCache now cacheFile st
    if st1.proxies ≠ [] then .ok st1
    else
      let gathered := runProviders st.countries st.protocol st.maxProxies st.providers []
      if gathered = [] then .error (.noProxiesFound (st.protocol = Protocol.https))
      else
        let finalProxies := deduplicateProxies gathered
        .ok { st1 with
                proxies := finalProxies,
                cacheExpiry := some (getExpiry now st.cachePeriod),
                current := finalProxies.head? }

/-! ## Lemmas about deduplication -/

lemma deduplicateProxiesAux_subset (l : List Proxy) :
    ∀ seen, ∀ p ∈ deduplicateProxiesAux seen l, p ∈ l := by
  induction l with
  | nil => intro seen p hp; simp [deduplicateProxiesAux] at hp
  | cons q qs ih =>
    intro seen p hp
    by_cases hq : q.asString ∈ seen
    · simp [deduplicateProxiesAux, hq] at hp
      exact List.mem_cons_of_mem _ (ih seen p hp)
    · simp [deduplicateProxiesAux, hq] at hp
      rcases hp with hp | hp
      · simp [hp]
      · exact List.mem_cons_of_mem _ (ih _ p hp)

lemma deduplicateProxiesAux_not_seen (l : List Proxy) :
    ∀ seen s, s ∈ seen → s ∉ (deduplicateProxiesAux seen l).map Proxy.asString := by
  induction l with
  | nil => intro seen s _ h; simp [deduplicateProxiesAux] at h
  | cons q qs ih =>
    intro seen s hs h
    by_cases hq : q.asString ∈ seen
    · simp [deduplicateProxiesAux, hq] at h
      exact ih seen s hs (by simpa using h)
    · simp [deduplicateProxiesAux, hq] at h
      rcases h with h | h
      · exact hq (h ▸ hs)
      · exact ih (q.asString :: seen) s (List.mem_cons_of_mem _ hs) (by simpa using h)

lemma deduplicateProxiesAux_nodup (l : List Proxy) :
    ∀ seen, ((deduplicateProxiesAux seen l).map Proxy.asString).Nodup := by
  induction l with
  | nil => intro seen; simp [deduplicateProxiesAux]
  | cons q qs ih =>
    intro seen
    by_cases hq : q.asString ∈ seen
    · simpa [deduplicateProxiesAux, hq] using ih seen
    · simp only [deduplicateProxiesAux, hq, if_false, List.map_cons]
      refine List.nodup_cons.mpr ⟨?_, ih _⟩
      exact deduplicateProxiesAux_not_seen qs (q.asString :: seen) q.asString (by simp)

lemma deduplicateProxiesAux_fixed (l : List Proxy) :
    ∀ seen, (l.map Proxy.asString).Nodup → (∀ p ∈ l, p.asString ∉ seen) →
      deduplicateProxiesAux seen l = l := by
  induction l with
  | nil => intro seen _ _; simp [deduplicateProxiesAux]
  | cons q qs ih =>
    intro seen hnd hout
    have hq : q.asString ∉ seen := hout q (by simp)
    rw [List.map_cons, List.nodup_cons] at hnd
    have hhead : q.asString ∉ qs.map Proxy.asString := hnd.1
    simp only [deduplicateProxiesAux, hq, if_false]
    congr 1
    refine ih (q.asString :: seen) hnd.2 ?_
    intro p hp
    intro hmem
    rcases List.mem_cons.mp hmem with h | h
    · exact hhead (h ▸ List.mem_map_of_mem Proxy.asString hp)
    · exact hout p (List.mem_cons_of_mem _ hp) h

/-! ## Claim C9: deduplication is idempotent -/

/-- C9: proxy deduplication by address string is idempotent: applying
deduplicateProxies to an already deduplicated list returns the list
unchanged, so deduplicating twice equals deduplicating once. -/
theorem deduplicateProxies_idempotent (proxies : List Proxy) :
    deduplicateProxies (deduplicateProxies proxies) = deduplicateProxies proxies := by
  unfold deduplicateProxies
  refine deduplicateProxiesAux_fixed _ [] (deduplicateProxiesAux_nodup proxies []) ?_
  intro p _ h
  simp at h

/-! ## Claim C6: the configuration fingerprint -/

/-- C6 counterexample: the fingerprint does NOT sort the country
filter, so the same set of countries listed in different orders yields
different fingerprints, refuting the claim as stated. -/
theorem configString_not_order_invariant :
    List.Perm ["US", "DE"] ["DE", "US"] ∧
      configStringOf 10 Protocol.http (normalizeCountries ["US", "DE"]) ≠
        configStringOf 10 Protocol.http (normalizeCountries ["DE", "US"]) := by
  constructor
  · decide
  · decide

/-- C6 amended: the fingerprint is the concatenation of the max size,
the protocol and the uppercased country filter joined in its configured
order (not sorted); two pools whose country lists agree elementwise up
to letter case (same order) share a fingerprint. -/
theorem configString_composition (maxProxies : Nat) (protocol : Protocol)
    (c1 c2 : List String) :
    (configStringOf maxProxies protocol (normalizeCountries c1) =
        toString maxProxies ++ protocol.str ++ String.join (c1.map jsToUpper))
    ∧ (c1.map jsToUpper = c2.map jsToUpper →
        configStringOf maxProxies protocol (normalizeCountries c1) =
          configStringOf maxProxies protocol (normalizeCountries c2)) := by
  constructor
  · rfl
  · intro h
    unfold configStringOf normalizeCountries
    rw [h]

/-- C6 witness: the amended fingerprint agreement at a concrete pair of
country lists differing only in letter case. -/
theorem configString_composition_example :
    configStringOf 10 Protocol.http (normalizeCountries ["us", "de"]) =
      configStringOf 10 Protocol.http (normalizeCountries ["US", "DE"]) :=
  (configString_composition 10 Protocol.http ["us", "de"] ["US", "DE"]).2 (by decide)

/-! ## Claim C3: cache trust policy -/

/-- C3: a cache record is used only when its fingerprint matches the
live configuration and it is unexpired: a mismatching fingerprint is
never used even when unexpired, an expired or unparsable expiry is
never used even when the fingerprint matches, and a matching unexpired
record populates the pool from the record. -/
theorem loadCache_trust_policy (now : Int) (cache : CacheData) (st : PoolState) :
    (st.configString ≠ cache.configString → loadCache now (some cache) st = st)
    ∧ (∀ e, cache.expiryIn = some e → checkExpiry now e = true →
        loadCache now (some cache) st = st)
    ∧ (cache.expiryIn = none → loadCache now (some cache) st = st)
    ∧ (∀ e, st.configString = cache.configString → cache.expiryIn = some e →
        checkExpiry now e = false →
        loadCache now (some cache) st =
          { st with
              proxies := cache.proxies,
              current := cache.proxies.head?,
              cacheExpiry := some e }) := by
  refine ⟨?_, ?_, ?_, ?_⟩
  · intro h
    simp [loadCache, h]
  · intro e he hexp
    simp [loadCache, he, hexp]
  · intro he
    simp [loadCache, he]
  · intro e hcfg he hexp
    simp [loadCache, hcfg, he, hexp]

/-- C3 witness: the trust policy applied to a concrete matching
unexpired record and to a concrete mismatching record. -/
theorem loadCache_trust_policy_example :
    (loadCache 5 (some ⟨some 10, "1http", [⟨"1.1.1.1", Protocol.http, 80⟩]⟩)
        { countries := [], protocol := Protocol.http, providers := [],
          maxProxies := 1, cachePeriod := 10, configString := "1http",
          proxyList := [], proxies := [], current := none, cacheExpiry := none } =
      { countries := [], protocol := Protocol.http, providers := [],
        maxProxies := 1, cachePeriod := 10, configString := "1http",
        proxyList := [], proxies := [⟨"1.1.1.1", Protocol.http, 80⟩],
        current := some ⟨"1.1.1.1", Protocol.http, 80⟩, cacheExpiry := some 10 })
    ∧ (loadCache 5 (some ⟨some 10, "2http", [⟨"1.1.1.1", Protocol.http, 80⟩]⟩)
        { countries := [], protocol := Protocol.http, providers := [],
          maxProxies := 1, cachePeriod := 10, configString := "1http",
          proxyList := [], proxies := [], current := none, cacheExpiry := none } =
      { countries := [], protocol := Protocol.http, providers := [],
        maxProxies := 1, cachePeriod := 10, configString := "1http",
        proxyList := [], proxies := [], current := none, cacheExpiry := none }) := by
  constructor
  · exact (loadCache_trust_policy 5 ⟨some 10, "1http", [⟨"1.1.1.1", Protocol.http, 80⟩]⟩
      { countries := [], protocol := Protocol.http, providers := [],
        maxProxies := 1, cachePeriod := 10, configString := "1http",
        proxyList := [], proxies := [], current := none, cacheExpiry := none }).2.2.2
      10 (by decide) (by decide) (by decide)
  · exact (loadCache_trust_policy 5 ⟨some 10, "2http", [⟨"1.1.1.1", Protocol.http, 80⟩]⟩
      { countries := [], protocol := Protocol.http, providers := [],
        maxProxies := 1, cachePeriod := 10, configString := "1http",
        proxyList := [], proxies := [], current := none, cacheExpiry := none }).1
      (by decide)

/-! ## Claim C2: pool invariants after a successful refresh -/

lemma head?_some_mem {α : Type} {l : List α} {a : α} (h : l.head? = some a) : a ∈ l := by
  cases l with
  | nil => cases h
  | cons b bs =>
    have hb : b = a := by simpa using h
    subst hb
    exact List.mem_cons_self b bs

lemma loadCache_cases (now : Int) (cacheFile : Option CacheData) (st : PoolState) :
    loadCache now cacheFile st = st ∨
    ∃ cache e, cacheFile = some cache ∧ st.configString = cache.configString ∧
      cache.expiryIn = some e ∧ checkExpiry now e = false ∧
      loadCache now cacheFile st =
        { st with
            proxies := cache.proxies,
            current := cache.proxies.head?,
            cacheExpiry := some e } := by
  cases cacheFile with
  | none => exact Or.inl rfl
  | some cache =>
    by_cases h1 : st.configString ≠ cache.configString
    · exact Or.inl (by simp [loadCache, h1])
    · push_neg at h1
      cases he : cache.expiryIn with
      | none => exact Or.inl (by simp [loadCache, he])
      | some e =>
        cases hc : checkExpiry now e with
        | true => exact Or.inl (by simp [loadCache, he, hc, h1])
        | false =>
          right
          exact ⟨cache, e, rfl, h1, he, hc, by simp [loadCache, he, hc, h1]⟩

lemma runProviders_mem (countries : List String) (protocol : Protocol) (maxProxies : Nat) :
    ∀ (provs : List Provider) (acc : List Proxy) (q : Proxy),
      (∀ pr ∈ provs, ∀ x ∈ pr.result, x.protocol = protocol) →
      q ∈ runProviders countries protocol maxProxies provs acc →
      q ∈ acc ∨ q.protocol = protocol := by
  intro provs
  induction provs with
  | nil =>
    intro acc q _ hq
    exact Or.inl (by simpa [runProviders] using hq)
  | cons pr rest ih =>
    intro acc q hall hq
    simp only [runProviders] at hq
    by_cases h1 : protocol ∉ pr.protocols
    · rw [if_pos h1] at hq
      exact ih acc q (fun r hr => hall r (List.mem_cons_of_mem _ hr)) hq
    · rw [if_neg h1] at hq
      by_cases h2 : countries ≠ [] ∧ pr.countryFilter = false
      · rw [if_pos h2] at hq
        exact ih acc q (fun r hr => hall r (List.mem_cons_of_mem _ hr)) hq
      · rw [if_neg h2] at hq
        by_cases h3 : maxProxies ≤ (acc ++ pr.result).length
        · rw [if_pos h3] at hq
          rcases List.mem_append.mp hq with h | h
          · exact Or.inl h
          · exact Or.inr (hall pr (by simp) q h)
        · rw [if_neg h3] at hq
          rcases ih (acc ++ pr.result) q (fun r hr => hall r (List.mem_cons_of_mem _ hr)) hq with
            h | h
          · rcases List.mem_append.mp h with h | h
            · exact Or.inl h
            · exact Or.inr (hall pr (by simp) q h)
          · exact Or.inr h

/-- C2 counterexample: on the provider aggregation path the loop only
stops once the accumulated count reaches maxProxies and the result is
never truncated, so a refresh can succeed with more proxies than
maxProxies.  Here one provider returns two proxies while maxProxies is
one, and the refreshed pool holds both. -/
theorem update_can_exceed_maxProxies :
    (update 0 none
        { countries := [], protocol := Protocol.http,
          providers := [⟨false, [Protocol.http],
            [⟨"1.1.1.1", Protocol.http, 80⟩, ⟨"2.2.2.2", Protocol.http, 80⟩]⟩],
          maxProxies := 1, cachePeriod := 10, configString := "1http",
          proxyList := [], proxies := [], current := none,
          cacheExpiry := none }).map (fun st => (st.proxies.length, st.maxProxies)) =
      .ok (2, 1) ∧ ¬ (2 ≤ 1) := by
  constructor
  · decide
  · decide

/-- C2 amended: after every successful refresh the current selection is
the first pool member (hence a member, and null exactly when the pool
is empty); on the static-list path the pool additionally has at most
maxProxies members, all of the configured protocol; on the cache and
provider paths the size bound can be exceeded (see the counterexample),
and all members have the configured protocol provided the cache record
and the provider results only contain proxies of that protocol. -/
theorem update_pool_invariants (now : Int) (cacheFile : Option CacheData)
    (st p2 : PoolState) (h : update now cacheFile st = .ok p2) :
    (p2.current = p2.proxies.head?)
    ∧ (p2.current = none ↔ p2.proxies = [])
    ∧ (∀ c, p2.current = some c → c ∈ p2.proxies)
    ∧ (st.proxyList.filter (fun q => q.protocol = st.protocol) ≠ [] →
        p2.proxies.length ≤ st.maxProxies ∧ ∀ q ∈ p2.proxies, q.protocol = st.protocol)
    ∧ ((∀ pr ∈ st.providers, ∀ x ∈ pr.result, x.protocol = st.protocol) →
       (∀ cache, cacheFile = some cache → ∀ x ∈ cache.proxies, x.protocol = st.protocol) →
        ∀ q ∈ p2.proxies, q.protocol = st.protocol) := by
  simp only [update] at h
  split at h
  next hcond =>
    -- static list path
    injection h with h
    subst h
    refine ⟨rfl, by simp [List.head?_eq_none_iff], fun c hc => head?_some_mem hc, ?_, ?_⟩
    · intro _
      constructor
      · exact List.length_take_le _ _
      · intro q hq
        have hq2 := List.take_subset _ _ hq
        have hq3 := deduplicateProxiesAux_subset _ [] q hq2
        have := List.mem_filter.mp hq3
        simpa using this.2
    · intro _ _ q hq
      have hq2 := List.take_subset _ _ hq
      have hq3 := deduplicateProxiesAux_subset _ [] q hq2
      have := List.mem_filter.mp hq3
      simpa using this.2
  next hcond =>
    split at h
    next hne =>
      -- cache path
      injection h with h
      rcases loadCache_cases now cacheFile
          { st with proxies := ([] : List Proxy), current := none, cacheExpiry := none } with
        hid | ⟨cache, e, hcf, _, _, _, hpop⟩
      · rw [hid] at hne
        simp at hne
      · rw [hpop] at h
        subst h
        refine ⟨rfl, by simp [List.head?_eq_none_iff], fun c hc => head?_some_mem hc, ?_, ?_⟩
        · intro hf
          have hpl : st.proxyList ≠ [] := by
            intro hl
            exact hf (by simp [hl])
          exact absurd ⟨hpl, hf⟩ hcond
        · intro _ hcache q hq
          exact hcache cache hcf q hq
    next hne =>
      split at h
      next => cases h
      next hg =>
        injection h with h
        subst h
        refine ⟨rfl, by simp [List.head?_eq_none_iff], fun c hc => head?_some_mem hc, ?_, ?_⟩
        · intro hf
          have hpl : st.proxyList ≠ [] := by
            intro hl
            exact hf (by simp [hl])
          exact absurd ⟨hpl, hf⟩ hcond
        · intro hprov _ q hq
          have hq2 := deduplicateProxiesAux_subset _ [] q hq
          rcases runProviders_mem _ _ _ st.providers [] q hprov hq2 with h | h
          · cases h
          · exact h

/-- C2 witness: the amended invariants applied to a concrete static
list refresh with one http and one https proxy and maxProxies one. -/
theorem update_pool_invariants_example :
    ({ countries := [], protocol := Protocol.http, providers := [],
       maxProxies := 1, cachePeriod := 10, configString := "1http",
       proxyList := [⟨"1.1.1.1", Protocol.http, 80⟩, ⟨"2.2.2.2", Protocol.https, 81⟩],
       proxies := [⟨"1.1.1.1", Protocol.http, 80⟩],
       current := some ⟨"1.1.1.1", Protocol.http, 80⟩,
       cacheExpiry := none } : PoolState).proxies.length ≤ 1 ∧
    ({ countries := [], protocol := Protocol.http, providers := [],
       maxProxies := 1, cachePeriod := 10, configString := "1http",
       proxyList := [⟨"1.1.1.1", Protocol.http, 80⟩, ⟨"2.2.2.2", Protocol.https, 81⟩],
       proxies := [⟨"1.1.1.1", Protocol.http, 80⟩],
       current := some ⟨"1.1.1.1", Protocol.http, 80⟩,
       cacheExpiry := none } : PoolState).current =
      some ⟨"1.1.1.1", Protocol.http, 80⟩ := by
  have h := update_pool_invariants 0 none
    { countries := [], protocol := Protocol.http, providers := [],
      maxProxies := 1, cachePeriod := 10, configString := "1http",
      proxyList := [⟨"1.1.1.1", Protocol.http, 80⟩, ⟨"2.2.2.2", Protocol.https, 81⟩],
      proxies := [], current := none, cacheExpiry := none }
    { countries := [], protocol := Protocol.http, providers := [],
      maxProxies := 1, cachePeriod := 10, configString := "1http",
      proxyList := [⟨"1.1.1.1", Protocol.http, 80⟩, ⟨"2.2.2.2", Protocol.https, 81⟩],
      proxies := [⟨"1.1.1.1", Protocol.http, 80⟩],
      current := some ⟨"1.1.1.1", Protocol.http, 80⟩,
      cacheExpiry := none }
    (by decide)
  exact ⟨(h.2.2.2.1 (by decide)).1, by rw [h.1]; rfl⟩

/-! ## Proxy configurations of the transcript pipeline
(src/src/lib/youtube-transcript/src/proxies.ts) -/

/-- The three proxy configuration classes.  The base class and
GenericProxyConfig inherit retriesWhenBlocked = 0; WebshareProxyConfig
stores its own value (source default 10). -/
inductive ProxyConfig
  | base
  | generic (httpUrl httpsUrl : Option String)
  | webshare (retries : Nat)
deriving DecidableEq

/-- Source ProxyConfig.retriesWhenBlocked getter and its Webshare
override. -/
def ProxyConfig.retriesWhenBlocked : ProxyConfig → Nat
  | .webshare retries => retries
  | _ => 0

/-- The expression of http.ts line 495: the configured retries when a
proxy configuration is present, otherwise 0. -/
def proxyRetries (proxyConfig : Option ProxyConfig) : Nat :=
  match proxyConfig with
  | some cfg => cfg.retriesWhenBlocked
  | none => 0

/-! ## The blocked-request retry loop
(http.ts, TranscriptListFetcher._fetchCaptionsJson, lines 484 to 503) -/

/-- Errors as the retry loop distinguishes them: RequestBlocked, its
IpBlocked subtype, and every other error (tagged). -/
inductive PipelineError
  | requestBlocked
  | ipBlocked
  | other (tag : Nat)
deriving DecidableEq

/-- The instanceof RequestBlocked test: IpBlocked extends
RequestBlocked, so both block variants pass. -/
def isRequestBlocked : PipelineError → Bool
  | .requestBlocked => true
  | .ipBlocked => true
  | .other _ => false

/-- Outcome of one execution of the try body (fetch page, extract key,
innertube call, extract captions); the payload abstracts the captions
JSON. -/
inductive AttemptOutcome
  | ok (captions : Nat)
  | err (e : PipelineError)
deriving DecidableEq

/-- Result of _fetchCaptionsJson: success, the last block error
re-raised via withProxyConfig (annotated with the active proxy
configuration), or a non-block error re-thrown unannotated. -/
inductive FetchResult
  | success (captions : Nat)
  | blockedGivenUp (e : PipelineError) (annotatedWith : Option ProxyConfig)
  | failed (e : PipelineError)
deriving DecidableEq

/-- The recursion of _fetchCaptionsJson, with attempts giving the
outcome of the try body at each tryNumber.  The fuel argument only
bounds the recursion depth so the definition is structural; the entry
point below passes fuel equal to the configured retries, which the
guard tryNumber + 1 < retries makes always sufficient, so the
out-of-fuel branch is unreachable from it. -/
def fetchCaptionsJsonGo (proxyConfig : Option ProxyConfig)
    (attempts : Nat → AttemptOutcome) : Nat → Nat → FetchResult
  | 0, tryNumber =>
    match attempts tryNumber with
    | .ok v => .success v
    | .err e =>
      if isRequestBlocked e then .blockedGivenUp e proxyConfig
      else .failed e
  | fuel + 1, tryNumber =>
    match attempts tryNumber with
    | .ok v => .success v
    | .err e =>
      if isRequestBlocked e then
        if tryNumber + 1 < proxyRetries proxyConfig then
          fetchCaptionsJsonGo proxyConfig attempts fuel (tryNumber + 1)
        else .blockedGivenUp e proxyConfig
      else .failed e

/-- Source _fetchCaptionsJson with its default tryNumber = 0. -/
def fetchCaptionsJson (proxyConfig : Option ProxyConfig)
    (attempts : Nat → AttemptOutcome) : FetchResult :=
  fetchCaptionsJsonGo proxyConfig attempts (proxyRetries proxyConfig) 0

/-- The attempt budget the code actually grants: the loop runs attempt
numbers 0 up to max retries 1 minus one, so max (retriesWhenBlocked) 1
attempts in total and max (retriesWhenBlocked - 1) 0 retries. -/
def attemptBudget (proxyConfig : Option ProxyConfig) : Nat :=
  max (proxyRetries proxyConfig) 1

/-- Attempt k fails with an error the loop treats as a block. -/
def blockedAt (attempts : Nat → AttemptOutcome) (k : Nat) : Prop :=
  ∃ e, attempts k = .err e ∧ isRequestBlocked e = true

lemma fetchGo_ok {cfg : Option ProxyConfig} {a : Nat → AttemptOutcome} {t : Nat} {v : Nat}
    (h : a t = .ok v) (fuel : Nat) : fetchCaptionsJsonGo cfg a fuel t = .success v := by
  cases fuel <;> simp [fetchCaptionsJsonGo, h]

lemma fetchGo_nonblock {cfg : Option ProxyConfig} {a : Nat → AttemptOutcome} {t : Nat}
    {e : PipelineError} (h : a t = .err e) (hb : isRequestBlocked e = false) (fuel : Nat) :
    fetchCaptionsJsonGo cfg a fuel t = .failed e := by
  cases fuel <;> simp [fetchCaptionsJsonGo, h, hb]

lemma fetchGo_block_stop {cfg : Option ProxyConfig} {a : Nat → AttemptOutcome} {t : Nat}
    {e : PipelineError} (h : a t = .err e) (hb : isRequestBlocked e = true)
    (hg : ¬ (t + 1 < proxyRetries cfg)) (fuel : Nat) :
    fetchCaptionsJsonGo cfg a fuel t = .blockedGivenUp e cfg := by
  cases fuel <;> simp [fetchCaptionsJsonGo, h, hb, hg]

lemma fetchGo_block_step {cfg : Option ProxyConfig} {a : Nat → AttemptOutcome} {t : Nat}
    {e : PipelineError} (h : a t = .err e) (hb : isRequestBlocked e = true)
    (hg : t + 1 < proxyRetries cfg) (fuel : Nat) :
    fetchCaptionsJsonGo cfg a (fuel + 1) t = fetchCaptionsJsonGo cfg a fuel (t + 1) := by
  simp [fetchCaptionsJsonGo, h, hb, hg]

lemma fetch_reach (cfg : Option ProxyConfig) (a : Nat → AttemptOutcome) :
    ∀ k, k < attemptBudget cfg → (∀ j, j < k → blockedAt a j) →
      fetchCaptionsJson cfg a = fetchCaptionsJsonGo cfg a (proxyRetries cfg - k) k := by
  intro k
  induction k with
  | zero => intro _ _; rfl
  | succ k ih =>
    intro hk hblocked
    have hk2 : k < attemptBudget cfg := Nat.lt_of_succ_lt hk
    have hkR : k + 1 < proxyRetries cfg := by
      have := hk
      unfold attemptBudget at this
      omega
    obtain ⟨e, he, hbe⟩ := hblocked k (Nat.lt_succ_self k)
    have hstep := fetchGo_block_step he hbe hkR (proxyRetries cfg - (k + 1))
    have hfuel : proxyRetries cfg - (k + 1) + 1 = proxyRetries cfg - k := by omega
    rw [ih hk2 (fun j hj => hblocked j (Nat.lt_succ_of_lt hj)), ← hfuel, hstep]

/-- C1 counterexample: with a Webshare configuration whose
retriesWhenBlocked is 1 the claim promises a retry budget of one, yet
when attempt 0 is blocked the loop gives up immediately (the guard is
tryNumber + 1 < retries), even though the next attempt would have
succeeded. -/
theorem fetchCaptionsJson_budget_one_no_retry :
    fetchCaptionsJson (some (ProxyConfig.webshare 1))
        (fun k => if k = 0 then .err .requestBlocked else .ok 7) =
      .blockedGivenUp .requestBlocked (some (ProxyConfig.webshare 1))
    ∧ (fun k => if k = 0 then AttemptOutcome.err .requestBlocked else .ok 7) 1 =
        AttemptOutcome.ok 7 := by
  constructor
  · rfl
  · rfl

/-- C1 amended: only RequestBlocked and IpBlocked trigger an internal
retry; the loop grants max retriesWhenBlocked 1 total attempts (0 or no
proxy configuration means a single attempt, i.e. no retry, and the
number of retries is retriesWhenBlocked - 1, not retriesWhenBlocked);
when every attempt in that budget is blocked the last block error is
re-raised annotated with the active proxy configuration; a non-block
error propagates immediately. -/
theorem fetchCaptionsJson_retry_policy (cfg : Option ProxyConfig)
    (a : Nat → AttemptOutcome) :
    (∀ k v, k < attemptBudget cfg → (∀ j, j < k → blockedAt a j) → a k = .ok v →
        fetchCaptionsJson cfg a = .success v)
    ∧ (∀ e, (∀ j, j < attemptBudget cfg → blockedAt a j) →
        a (attemptBudget cfg - 1) = .err e →
        fetchCaptionsJson cfg a = .blockedGivenUp e cfg)
    ∧ (∀ k e, k < attemptBudget cfg → (∀ j, j < k → blockedAt a j) → a k = .err e →
        isRequestBlocked e = false → fetchCaptionsJson cfg a = .failed e) := by
  refine ⟨?_, ?_, ?_⟩
  · intro k v hk hblocked hok
    rw [fetch_reach cfg a k hk hblocked]
    exact fetchGo_ok hok _
  · intro e hall hlast
    have hb1 : 1 ≤ attemptBudget cfg := le_max_right _ _
    have hk : attemptBudget cfg - 1 < attemptBudget cfg := by omega
    rw [fetch_reach cfg a (attemptBudget cfg - 1) hk
      (fun j hj => hall j (by omega))]
    obtain ⟨e2, he2, hbe2⟩ := hall (attemptBudget cfg - 1) hk
    have hee : e2 = e := by
      rw [hlast] at he2
      exact (AttemptOutcome.err.inj he2).symm
    subst hee
    have hg : ¬ (attemptBudget cfg - 1 + 1 < proxyRetries cfg) := by
      unfold attemptBudget
      omega
    exact fetchGo_block_stop he2 hbe2 hg _
  · intro k e hk hblocked herr hnb
    rw [fetch_reach cfg a k hk hblocked]
    exact fetchGo_nonblock herr hnb _

/-- C1 witness: with retriesWhenBlocked 2 a blocked first attempt is
retried and the second attempt succeeds. -/
theorem fetchCaptionsJson_retry_policy_example :
    fetchCaptionsJson (some (ProxyConfig.webshare 2))
        (fun k => if k = 0 then .err .requestBlocked else .ok 7) = .success 7 := by
  refine (fetchCaptionsJson_retry_policy (some (ProxyConfig.webshare 2))
      (fun k => if k = 0 then .err .requestBlocked else .ok 7)).1 1 7 (by decide) ?_ (by decide)
  intro j hj
  have hj0 : j = 0 := by omega
  subst hj0
  exact ⟨.requestBlocked, rfl, rfl⟩

/-! ## Claim C4: HTTP status classification
(http.ts, raiseHttpErrors, lines 646 to 659) -/

/-- A fetch Response as raiseHttpErrors consumes it.  The ok flag of
the platform is 200 ≤ status ≤ 299 and is modelled by responseOk; the
body is carried to state that classification ignores it. -/
structure Response where
  status : Nat
  statusText : String
  body : String
deriving DecidableEq

/-- The WHATWG fetch Response.ok predicate. -/
def responseOk (r : Response) : Bool :=
  decide (200 ≤ r.status) && decide (r.status ≤ 299)

/-- Errors thrown by raiseHttpErrors. -/
inductive HttpCheckError
  | ipBlocked (videoId : String)
  | requestFailed (videoId : String) (reason : String)
deriving DecidableEq

/-- Source raiseHttpErrors: status 429 throws IpBlocked first, any
other non-ok status throws YouTubeRequestFailed with the status in its
reason string, otherwise the response is returned unchanged. -/
def raiseHttpErrors (r : Response) (videoId : String) : Except HttpCheckError Response :=
  if r.status = 429 then .error (.ipBlocked videoId)
  else if !responseOk r then
    .error (.requestFailed videoId (toString r.status ++ " " ++ r.statusText))
  else .ok r

/-- C4: a 429 status always raises IpBlocked whatever the body and
before any other status handling; any other non-2xx status raises
YouTubeRequestFailed carrying the numeric status; a 2xx response is
passed through unchanged. -/
theorem raiseHttpErrors_classification (r : Response) (videoId : String) :
    (r.status = 429 → raiseHttpErrors r videoId = .error (.ipBlocked videoId))
    ∧ (r.status ≠ 429 → ¬ (200 ≤ r.status ∧ r.status ≤ 299) →
        raiseHttpErrors r videoId =
          .error (.requestFailed videoId (toString r.status ++ " " ++ r.statusText)))
    ∧ (200 ≤ r.status → r.status ≤ 299 → raiseHttpErrors r videoId = .ok r) := by
  refine ⟨?_, ?_, ?_⟩
  · intro h
    simp [raiseHttpErrors, h]
  · intro h429 hnok
    have : responseOk r = false := by
      unfold responseOk
      rcases Decidable.not_and_iff_or_not.mp hnok with h | h <;> simp [h]
    simp [raiseHttpErrors, h429, this]
  · intro h1 h2
    have h429 : r.status ≠ 429 := by omega
    have : responseOk r = true := by simp [responseOk, h1, h2]
    simp [raiseHttpErrors, h429, this]

/-- C4 witness: the classification evaluated at a 429 response with an
arbitrary body, at a 503 response, and at a 200 response. -/
theorem raiseHttpErrors_classification_example :
    raiseHttpErrors ⟨429, "Too Many Requests", "some body"⟩ "vid" =
      .error (.ipBlocked "vid")
    ∧ raiseHttpErrors ⟨503, "Service Unavailable", ""⟩ "vid" =
      .error (.requestFailed "vid" "503 Service Unavailable")
    ∧ raiseHttpErrors ⟨200, "OK", "payload"⟩ "vid" = .ok ⟨200, "OK", "payload"⟩ := by
  refine ⟨?_, ?_, ?_⟩
  · exact (raiseHttpErrors_classification ⟨429, "Too Many Requests", "some body"⟩ "vid").1 rfl
  · exact (raiseHttpErrors_classification ⟨503, "Service Unavailable", ""⟩ "vid").2.1
      (by decide) (by decide)
  · exact (raiseHttpErrors_classification ⟨200, "OK", "payload"⟩ "vid").2.2
      (by decide) (by decide)

/-! ## Transcript and translate (http.ts, class Transcript, lines 244 to 331) -/

/-- Source type TranslationLanguage. -/
structure TranslationLanguage where
  language : String
  languageCode : String
deriving DecidableEq

/-- Source class Transcript (its data fields; the http client is
ambient and the private map is recomputed from translationLanguages,
as the constructor builds it from exactly that list). -/
structure Transcript where
  videoId : String
  url : String
  language : String
  languageCode : String
  isGenerated : Bool
  translationLanguages : List TranslationLanguage
deriving DecidableEq

/-- The private _translationLanguagesMap get: a JS Map built from the
list keeps the last entry for a duplicated key. -/
def translationMapGet (ls : List TranslationLanguage) (code : String) : Option String :=
  match ls.reverse.find? (fun item => item.languageCode == code) with
  | some item => some item.language
  | none => none

/-- The private _translationLanguagesMap has. -/
def translationMapHas (ls : List TranslationLanguage) (code : String) : Bool :=
  ls.any (fun item => item.languageCode == code)

/-- Source Transcript.isTranslatable getter. -/
def Transcript.isTranslatable (t : Transcript) : Bool :=
  decide (t.translationLanguages.length > 0)

/-- Errors thrown by Transcript.translate. -/
inductive TranslateError
  | notTranslatable (videoId : String)
  | translationLanguageNotAvailable (videoId : String)
deriving DecidableEq

/-- Source Transcript.translate (http.ts lines 312 to 330): guard on
isTranslatable, guard on map membership, then build a new Transcript
with tlang appended to the url, isGenerated true and an empty
translation list.  The language falls back to the requested code when
the map lookup is missing or empty (the JS or-else). -/
def Transcript.translate (t : Transcript) (languageCode : String) :
    Except TranslateError Transcript :=
  if !t.isTranslatable then .error (.notTranslatable t.videoId)
  else if !translationMapHas t.translationLanguages languageCode then
    .error (.translationLanguageNotAvailable t.videoId)
  else
    .ok
      { videoId := t.videoId,
        url := t.url ++ "&tlang=" ++ languageCode,
        language :=
          match translationMapGet t.translationLanguages languageCode with
          | some name => if name = "" then languageCode else name
          | none => languageCode,
        languageCode := languageCode,
        isGenerated := true,
        translationLanguages := [] }

/-- C10: translating a translatable transcript to an available language
yields a transcript that is generated and has no translation languages,
so translating the result again always throws NotTranslatable. -/
theorem translate_result_not_translatable (t : Transcript) (languageCode : String)
    (h1 : t.isTranslatable = true)
    (h2 : translationMapHas t.translationLanguages languageCode = true) :
    ∃ t2, t.translate languageCode = .ok t2
      ∧ t2.isGenerated = true
      ∧ t2.translationLanguages = []
      ∧ t2.videoId = t.videoId
      ∧ ∀ code2, t2.translate code2 = .error (.notTranslatable t.videoId) := by
  refine ⟨{ videoId := t.videoId,
            url := t.url ++ "&tlang=" ++ languageCode,
            language :=
              match translationMapGet t.translationLanguages languageCode with
              | some name => if name = "" then languageCode else name
              | none => languageCode,
            languageCode := languageCode,
            isGenerated := true,
            translationLanguages := [] }, ?_, rfl, rfl, rfl, ?_⟩
  · simp [Transcript.translate, h1, h2]
  · intro code2
    simp [Transcript.translate, Transcript.isTranslatable]

/-- C10 witness: a concrete translatable english track translated to
german, then translated again. -/
theorem translate_result_not_translatable_example :
    ∃ t2,
      Transcript.translate
          { videoId := "dQw4w9WgXcQ", url := "https://example/t", language := "English",
            languageCode := "en", isGenerated := false,
            translationLanguages := [⟨"German", "de"⟩] } "de" = .ok t2
      ∧ t2.isGenerated = true
      ∧ t2.translationLanguages = []
      ∧ t2.videoId = "dQw4w9WgXcQ"
      ∧ ∀ code2, t2.translate code2 = .error (.notTranslatable "dQw4w9WgXcQ") :=
  translate_result_not_translatable
    { videoId := "dQw4w9WgXcQ", url := "https://example/t", language := "English",
      languageCode := "en", isGenerated := false,
      translationLanguages := [⟨"German", "de"⟩] } "de" (by decide) (by decide)

/-! ## TranscriptList and track selection
(http.ts, class TranscriptList, lines 333 to 468) -/

/-- Source class TranscriptList: two language-code keyed track maps
(JS objects, insertion ordered) and the translation catalog. -/
structure TranscriptList where
  videoId : String
  manuallyCreatedTranscripts : List (String × Transcript)
  generatedTranscripts : List (String × Transcript)
  translationLanguages : List TranslationLanguage
deriving DecidableEq

/-- JS object indexing dict[languageCode]. -/
def dictGet (dict : List (String × Transcript)) (languageCode : String) : Option Transcript :=
  match dict.find? (fun entry => entry.1 == languageCode) with
  | some entry => some entry.2
  | none => none

/-- The inner loop of _findTranscript: the first dictionary holding the
code wins. -/
def firstDictGet : List (List (String × Transcript)) → String → Option Transcript
  | [], _ => none
  | dict :: dicts, code =>
    match dictGet dict code with
    | some t => some t
    | none => firstDictGet dicts code

/-- Payload of the NoTranscriptFound error: video id, the full
requested code list and the catalog itself. -/
structure NoTranscriptFoundData where
  videoId : String
  requestedLanguageCodes : List String
  transcriptData : TranscriptList
deriving DecidableEq

/-- Source TranscriptList._findTranscript (http.ts lines 434 to 447):
outer loop over the requested codes, inner loop over the dictionaries,
NoTranscriptFound with the requested codes and the catalog when nothing
matches. -/
def findTranscriptIn (tl : TranscriptList) (dicts : List (List (String × Transcript)))
    (requested : List String) : List String → Except NoTranscriptFoundData Transcript
  | [] => .error ⟨tl.videoId, requested, tl⟩
  | code :: rest =>
    match firstDictGet dicts code with
    | some t => .ok t
    | none => findTranscriptIn tl dicts requested rest

/-- Source TranscriptList.findTranscript: manual dictionary before the
generated one. -/
def TranscriptList.findTranscript (tl : TranscriptList) (languageCodes : List String) :
    Except NoTranscriptFoundData Transcript :=
  findTranscriptIn tl [tl.manuallyCreatedTranscripts, tl.generatedTranscripts]
    languageCodes languageCodes

lemma findTranscriptIn_skip (tl : TranscriptList) (dicts : List (List (String × Transcript)))
    (orig : List String) :
    ∀ pre tail, (∀ c ∈ pre, firstDictGet dicts c = none) →
      findTranscriptIn tl dicts orig (pre ++ tail) = findTranscriptIn tl dicts orig tail := by
  intro pre
  induction pre with
  | nil => intro tail _; rfl
  | cons c cs ih =>
    intro tail h
    have hc := h c (by simp)
    simp only [List.cons_append, findTranscriptIn, hc]
    exact ih tail (fun d hd => h d (List.mem_cons_of_mem _ hd))

/-- C5: findTranscript walks the requested codes in caller order,
returning the first match: for every all-miss prefix of requested
codes, the first code with any hit decides the result, the manually
created map consulted before the generated map (so a manual track beats
a generated track for that code, whatever matches later codes would
give); when no requested code matches any track the result is
NoTranscriptFound carrying the requested codes and the catalog.  Every
requested sequence is covered: it either has an all-miss split before
a first hit, matching one of the first two conjuncts, or is all miss,
matching the third. -/
theorem findTranscript_search_order (tl : TranscriptList) :
    (∀ pre code rest t,
        (∀ c ∈ pre, dictGet tl.manuallyCreatedTranscripts c = none ∧
            dictGet tl.generatedTranscripts c = none) →
        dictGet tl.manuallyCreatedTranscripts code = some t →
        tl.findTranscript (pre ++ code :: rest) = .ok t)
    ∧ (∀ pre code rest t,
        (∀ c ∈ pre, dictGet tl.manuallyCreatedTranscripts c = none ∧
            dictGet tl.generatedTranscripts c = none) →
        dictGet tl.manuallyCreatedTranscripts code = none →
        dictGet tl.generatedTranscripts code = some t →
        tl.findTranscript (pre ++ code :: rest) = .ok t)
    ∧ (∀ codes, (∀ code ∈ codes, dictGet tl.manuallyCreatedTranscripts code = none ∧
          dictGet tl.generatedTranscripts code = none) →
        tl.findTranscript codes = .error ⟨tl.videoId, codes, tl⟩) := by
  refine ⟨?_, ?_, ?_⟩
  · intro pre code rest t hpre h
    unfold TranscriptList.findTranscript
    rw [findTranscriptIn_skip tl _ _ pre (code :: rest)
      (fun c hc => by simp [firstDictGet, (hpre c hc).1, (hpre c hc).2])]
    simp [findTranscriptIn, firstDictGet, h]
  · intro pre code rest t hpre hm hg
    unfold TranscriptList.findTranscript
    rw [findTranscriptIn_skip tl _ _ pre (code :: rest)
      (fun c hc => by simp [firstDictGet, (hpre c hc).1, (hpre c hc).2])]
    simp [findTranscriptIn, firstDictGet, hm, hg]
  · intro codes hnone
    unfold TranscriptList.findTranscript
    suffices h : ∀ rest, (∀ code ∈ rest, dictGet tl.manuallyCreatedTranscripts code = none ∧
        dictGet tl.generatedTranscripts code = none) →
        findTranscriptIn tl [tl.manuallyCreatedTranscripts, tl.generatedTranscripts]
          codes rest = .error ⟨tl.videoId, codes, tl⟩ by
      exact h codes hnone
    intro rest
    induction rest with
    | nil => intro _; rfl
    | cons code rest2 ih =>
      intro hall
      have hc := hall code (by simp)
      simp [findTranscriptIn, firstDictGet, hc.1, hc.2,
        ih (fun c hc2 => hall c (List.mem_cons_of_mem _ hc2))]

/-- C5 witness: the scenario of the spec: video dQw4w9WgXcQ with both a
manual and a generated english track; requesting english returns the
manual track, which differs from the generated one; requesting french
then english (no french track exists) falls back, in order, to the same
manual english track; requesting an unknown code returns
NoTranscriptFound with that code and the catalog. -/
theorem findTranscript_search_order_example :
    ({ videoId := "dQw4w9WgXcQ",
       manuallyCreatedTranscripts :=
         [("en", { videoId := "dQw4w9WgXcQ", url := "https://example/manual",
                   language := "English", languageCode := "en", isGenerated := false,
                   translationLanguages := [] })],
       generatedTranscripts :=
         [("en", { videoId := "dQw4w9WgXcQ", url := "https://example/generated",
                   language := "English (auto-generated)", languageCode := "en",
                   isGenerated := true, translationLanguages := [] })],
       translationLanguages := [] } : TranscriptList).findTranscript ["en"] =
      .ok { videoId := "dQw4w9WgXcQ", url := "https://example/manual",
            language := "English", languageCode := "en", isGenerated := false,
            translationLanguages := [] }
    ∧ ({ videoId := "dQw4w9WgXcQ",
         manuallyCreatedTranscripts :=
           [("en", { videoId := "dQw4w9WgXcQ", url := "https://example/manual",
                     language := "English", languageCode := "en", isGenerated := false,
                     translationLanguages := [] })],
         generatedTranscripts :=
           [("en", { videoId := "dQw4w9WgXcQ", url := "https://example/generated",
                     language := "English (auto-generated)", languageCode := "en",
                     isGenerated := true, translationLanguages := [] })],
         translationLanguages := [] } : TranscriptList).findTranscript ["fr", "en"] =
      .ok { videoId := "dQw4w9WgXcQ", url := "https://example/manual",
            language := "English", languageCode := "en", isGenerated := false,
            translationLanguages := [] }
    ∧ ({ videoId := "dQw4w9WgXcQ",
         manuallyCreatedTranscripts :=
           [("en", { videoId := "dQw4w9WgXcQ", url := "https://example/manual",
                     language := "English", languageCode := "en", isGenerated := false,
                     translationLanguages := [] })],
         generatedTranscripts := [],
         translationLanguages := [] } : TranscriptList).findTranscript ["xx"] =
      .error ⟨"dQw4w9WgXcQ", ["xx"],
        { videoId := "dQw4w9WgXcQ",
          manuallyCreatedTranscripts :=
            [("en", { videoId := "dQw4w9WgXcQ", url := "https://example/manual",
                      language := "English", languageCode := "en", isGenerated := false,
                      translationLanguages := [] })],
          generatedTranscripts := [],
          translationLanguages := [] }⟩ := by
  refine ⟨?_, ?_, ?_⟩
  · exact (findTranscript_search_order _).1 [] "en" [] _ (by decide) (by decide)
  · exact (findTranscript_search_order _).1 ["fr"] "en" [] _ (by decide) (by decide)
  · exact (findTranscript_search_order _).2.2 ["xx"] (by decide)

/-! ## Character classes used by the parsing regexes -/

def isAsciiDigit (c : Char) : Bool := '0' ≤ c && c ≤ '9'

def isHexDigitChar (c : Char) : Bool :=
  isAsciiDigit c || ('a' ≤ c && c ≤ 'f') || ('A' ≤ c && c ≤ 'F')

def isAsciiLetter (c : Char) : Bool := ('a' ≤ c && c ≤ 'z') || ('A' ≤ c && c ≤ 'Z')

/-- The regex word class used by word boundaries. -/
def isWordChar (c : Char) : Bool := isAsciiLetter c || isAsciiDigit c || c = '_'

def hexDigitVal (c : Char) : Nat :=
  if isAsciiDigit c then c.toNat - 48
  else if 'a' ≤ c && c ≤ 'f' then c.toNat - 97 + 10
  else if 'A' ≤ c && c ≤ 'F' then c.toNat - 65 + 10
  else 0

/-- Value of a hexadecimal digit string (parseInt base 16 on a string
the regex guarantees to be hex digits; the model is exact where
JavaScript doubles would round very long digit strings). -/
def hexToNat (ds : List Char) : Nat := ds.foldl (fun acc c => 16 * acc + hexDigitVal c) 0

/-- Value of a decimal digit string, same remark as hexToNat. -/
def decToNat (ds : List Char) : Nat := ds.foldl (fun acc c => 10 * acc + (c.toNat - 48)) 0

/-- Unicode scalar values, the code points a Lean Char can hold.
String.fromCodePoint would throw a RangeError above 0x10FFFF and
produce a lone surrogate in 0xD800 to 0xDFFF; the model leaves such
numeric references undecoded, and no theorem below touches them. -/
def isScalarCodePoint (n : Nat) : Bool :=
  n < 0xD800 || (0xE000 ≤ n && n ≤ 0x10FFFF)

/-! ## decodeHtml (utils.ts lines 10 to 30): three sequential global
regex replaces: hexadecimal references, decimal references, named
entities.  Each pass is written with a fuel argument so the recursion
is structural; fuel equal to the input length always suffices because
every step consumes at least one character. -/

def decodeHexRefsGo : Nat → List Char → List Char
  | 0, l => l
  | _ + 1, [] => []
  | fuel + 1, c :: cs =>
    if c = '&' then
      match cs with
      | '#' :: 'x' :: rest =>
        let digits := rest.takeWhile isHexDigitChar
        let afterDigits := rest.dropWhile isHexDigitChar
        match digits, afterDigits with
        | _ :: _, ';' :: tail =>
          let n := hexToNat digits
          if isScalarCodePoint n then Char.ofNat n :: decodeHexRefsGo fuel tail
          else c :: '#' :: 'x' :: (digits ++ ';' :: decodeHexRefsGo fuel tail)
        | _, _ => c :: decodeHexRefsGo fuel cs
      | _ => c :: decodeHexRefsGo fuel cs
    else c :: decodeHexRefsGo fuel cs

def decodeDecRefsGo : Nat → List Char → List Char
  | 0, l => l
  | _ + 1, [] => []
  | fuel + 1, c :: cs =>
    if c = '&' then
      match cs with
      | '#' :: rest =>
        let digits := rest.takeWhile isAsciiDigit
        let afterDigits := rest.dropWhile isAsciiDigit
        match digits, afterDigits with
        | _ :: _, ';' :: tail =>
          let n := decToNat digits
          if isScalarCodePoint n then Char.ofNat n :: decodeDecRefsGo fuel tail
          else c :: '#' :: (digits ++ ';' :: decodeDecRefsGo fuel tail)
        | _, _ => c :: decodeDecRefsGo fuel cs
      | _ => c :: decodeDecRefsGo fuel cs
    else c :: decodeDecRefsGo fuel cs

/-- The HTML_ENTITY_MAP of utils.ts (nbsp maps to a plain space in the
source). -/
def entityLookup (name : List Char) : Option Char :=
  if name = ['a', 'm', 'p'] then some '&'
  else if name = ['l', 't'] then some '<'
  else if name = ['g', 't'] then some '>'
  else if name = ['q', 'u', 'o', 't'] then some '"'
  else if name = ['a', 'p', 'o', 's'] then some (Char.ofNat 39)
  else if name = ['n', 'b', 's', 'p'] then some ' '
  else none

def decodeNamedRefsGo : Nat → List Char → List Char
  | 0, l => l
  | _ + 1, [] => []
  | fuel + 1, c :: cs =>
    if c = '&' then
      let name := cs.takeWhile isAsciiLetter
      let afterName := cs.dropWhile isAsciiLetter
      match name, afterName with
      | _ :: _, ';' :: tail =>
        match entityLookup name with
        | some ch => ch :: decodeNamedRefsGo fuel tail
        | none => c :: (name ++ ';' :: decodeNamedRefsGo fuel tail)
      | _, _ => c :: decodeNamedRefsGo fuel cs
    else c :: decodeNamedRefsGo fuel cs

/-- Source decodeHtml: empty input short circuits, then the three
replace passes in order. -/
def decodeHtml (input : List Char) : List Char :=
  if input.isEmpty then []
  else
    let s1 := decodeHexRefsGo input.length input
    let s2 := decodeDecRefsGo s1.length s1
    decodeNamedRefsGo s2.length s2

/-! ## buildHtmlStripper with preserveFormatting false
(utils.ts line 55): globally delete every maximal run from a < to the
next >.  When no > follows, the regex cannot match there and the < is
kept. -/

def stripTagsGo : Nat → List Char → List Char
  | 0, l => l
  | _ + 1, [] => []
  | fuel + 1, c :: cs =>
    if c = '<' then
      match cs.dropWhile (fun ch => ch != '>') with
      | _ :: tail => stripTagsGo fuel tail
      | [] => c :: stripTagsGo fuel cs
    else c :: stripTagsGo fuel cs

def stripTags (l : List Char) : List Char := stripTagsGo l.length l

/-! ## parseFloat (the JavaScript builtin applied to the start and dur
attributes).  NaN and the infinities are explicit; finite values are
the exact decimal value as a rational (exact for every value a theorem
below mentions). -/

inductive JsNumber
  | nan
  | infinity (negative : Bool)
  | finite (value : Rat)
deriving DecidableEq

/-- StrWhiteSpace accepted before the number: the ASCII whitespace,
the no-break space 0x00A0 and the byte order mark 0xFEFF. -/
def jsWhitespaceChar (c : Char) : Bool :=
  c = ' ' || c = '\t' || c = '\n' || c = '\r' || c = '\x0b' || c = '\x0c' ||
    c = Char.ofNat 0x00A0 || c = Char.ofNat 0xFEFF

/-- Exact value of sign, integer digits, fraction digits and decimal
exponent. -/
def decimalValue (negative : Bool) (intDigits fracDigits : List Char) (exponent : Int) : Rat :=
  let base : Int := (decToNat intDigits * 10 ^ fracDigits.length + decToNat fracDigits : Nat)
  let signed : Int := if negative then -base else base
  if 0 ≤ exponent then mkRat (signed * 10 ^ exponent.toNat) (10 ^ fracDigits.length)
  else mkRat signed (10 ^ fracDigits.length * 10 ^ (-exponent).toNat)

/-- Exponent part: an e or E, an optional sign and digits; when no
digit follows, the exponent is not part of the longest valid prefix and
contributes nothing (decToNat of the empty list is 0). -/
def parseExponent (l : List Char) : Int :=
  match l with
  | e :: rest =>
    if e = 'e' || e = 'E' then
      match rest with
      | '+' :: r2 => (decToNat (r2.takeWhile isAsciiDigit) : Int)
      | '-' :: r2 => -(decToNat (r2.takeWhile isAsciiDigit) : Int)
      | _ => (decToNat (rest.takeWhile isAsciiDigit) : Int)
    else 0
  | [] => 0

/-- StrUnsignedDecimalLiteral: Infinity, digits with optional dot,
fraction and exponent, or dot fraction with exponent; anything else is
NaN. -/
def parseUnsignedFloat (negative : Bool) (l : List Char) : JsNumber :=
  if l.take 8 = ['I', 'n', 'f', 'i', 'n', 'i', 't', 'y'] then .infinity negative
  else
    let intDigits := l.takeWhile isAsciiDigit
    let afterInt := l.dropWhile isAsciiDigit
    match afterInt with
    | '.' :: afterDot =>
      let fracDigits := afterDot.takeWhile isAsciiDigit
      if intDigits.isEmpty && fracDigits.isEmpty then .nan
      else
        .finite (decimalValue negative intDigits fracDigits
          (parseExponent (afterDot.dropWhile isAsciiDigit)))
    | _ =>
      if intDigits.isEmpty then .nan
      else .finite (decimalValue negative intDigits [] (parseExponent afterInt))

/-- The parseFloat builtin: skip whitespace, optional sign, longest
valid decimal prefix, NaN when there is none. -/
def jsParseFloat (s : List Char) : JsNumber :=
  match s.dropWhile jsWhitespaceChar with
  | '+' :: rest => parseUnsignedFloat false rest
  | '-' :: rest => parseUnsignedFloat true rest
  | rest => parseUnsignedFloat false rest

/-! ## Attribute extraction (http.ts lines 627 to 628): the non-global
regexes start="([^"]+)" and dur="([^"]+)".  The engine scans for the
leftmost position where the literal, a nonempty quote-free run and the
closing quote all match. -/

def matchAttrValue (name : List Char) : List Char → Option (List Char)
  | [] => none
  | c :: cs =>
    if (c :: cs).take (name.length + 2) = name ++ ['=', '"'] then
      let afterPat := (c :: cs).drop (name.length + 2)
      let value := afterPat.takeWhile (fun ch => ch != '"')
      let afterValue := afterPat.dropWhile (fun ch => ch != '"')
      if !value.isEmpty && !afterValue.isEmpty then some value
      else matchAttrValue name cs
    else matchAttrValue name cs

/-! ## The element regex of TranscriptParser.parse (http.ts line 622):
a case insensitive text open tag with a word boundary, a greedy run of
non gt characters, the gt, a lazy body and the closing tag.  Leftmost
match semantics reduce to: find the first open tag position, take the
attributes up to the first gt, take the body up to the first closing
tag; when any of these is missing no further match exists. -/

def charLowerEq (a b : Char) : Bool := a.toLower == b.toLower

def startsWithCI : List Char → List Char → Bool
  | [], _ => true
  | _ :: _, [] => false
  | p :: ps, c :: cs => charLowerEq p c && startsWithCI ps cs

def openTagChars : List Char := ['<', 't', 'e', 'x', 't']

def closeTagChars : List Char := ['<', '/', 't', 'e', 'x', 't', '>']

/-- The word boundary after the open tag literal: the next character is
not a word character, or the input ends. -/
def wordBoundaryAfterTag : List Char → Bool
  | [] => true
  | c :: _ => !isWordChar c

/-- Leftmost occurrence of the open tag with its boundary; returns the
suffix after the literal. -/
def findTextOpen : List Char → Option (List Char)
  | [] => none
  | c :: cs =>
    if startsWithCI openTagChars (c :: cs) && wordBoundaryAfterTag ((c :: cs).drop 5) then
      some ((c :: cs).drop 5)
    else findTextOpen cs

/-- The greedy attribute run: everything up to the first gt, none when
no gt exists. -/
def splitAtGt (l : List Char) : Option (List Char × List Char) :=
  match l.dropWhile (fun ch => ch != '>') with
  | _ :: tail => some (l.takeWhile (fun ch => ch != '>'), tail)
  | [] => none

/-- The lazy body: everything up to the first closing tag, with the
suffix after it. -/
def findTextClose : List Char → Option (List Char × List Char)
  | [] => none
  | c :: cs =>
    if startsWithCI closeTagChars (c :: cs) then some ([], (c :: cs).drop 7)
    else
      match findTextClose cs with
      | some (content, rest) => some (c :: content, rest)
      | none => none

/-- One snippet as the loop body builds it: decoded then stripped body,
start and dur attributes through parseFloat with the literal 0 default
when the attribute regex found nothing. -/
structure FetchedTranscriptSnippet where
  text : List Char
  start : JsNumber
  duration : JsNumber
deriving DecidableEq

def snippetOfMatch (attrs content : List Char) : FetchedTranscriptSnippet :=
  { text := stripTags (decodeHtml content),
    start := jsParseFloat ((matchAttrValue ['s', 't', 'a', 'r', 't'] attrs).getD ['0']),
    duration := jsParseFloat ((matchAttrValue ['d', 'u', 'r'] attrs).getD ['0']) }

/-- The repeated exec loop, match by match.  Fuel bounds the number of
elements; the input length always suffices since every match consumes
at least one character. -/
def extractTextElementsGo : Nat → List Char → List (List Char × List Char)
  | 0, _ => []
  | fuel + 1, s =>
    match findTextOpen s with
    | none => []
    | some afterOpen =>
      match splitAtGt afterOpen with
      | none => []
      | some (attrs, afterGt) =>
        match findTextClose afterGt with
        | none => []
        | some (content, rest) => (attrs, content) :: extractTextElementsGo fuel rest

/-- The matches of the element regex over the whole document, in
document order. -/
def extractTextElements (s : List Char) : List (List Char × List Char) :=
  extractTextElementsGo s.length s

def parseSnippetsGo : Nat → List Char → List FetchedTranscriptSnippet
  | 0, _ => []
  | fuel + 1, s =>
    match findTextOpen s with
    | none => []
    | some afterOpen =>
      match splitAtGt afterOpen with
      | none => []
      | some (attrs, afterGt) =>
        match findTextClose afterGt with
        | none => []
        | some (content, rest) => snippetOfMatch attrs content :: parseSnippetsGo fuel rest

/-- Source TranscriptParser.parse (http.ts lines 620 to 644) with the
default preserveFormatting false. -/
def parseSnippets (rawData : List Char) : List FetchedTranscriptSnippet :=
  parseSnippetsGo rawData.length rawData

lemma parseGo_eq_extractGo :
    ∀ fuel s, parseSnippetsGo fuel s =
      (extractTextElementsGo fuel s).map (fun m => snippetOfMatch m.1 m.2) := by
  intro fuel
  induction fuel with
  | zero => intro s; rfl
  | succ fuel ih =>
    intro s
    cases hfo : findTextOpen s with
    | none => simp [parseSnippetsGo, extractTextElementsGo, hfo]
    | some afterOpen =>
      cases hsg : splitAtGt afterOpen with
      | none => simp [parseSnippetsGo, extractTextElementsGo, hfo, hsg]
      | some pair =>
        obtain ⟨attrs, afterGt⟩ := pair
        cases hfc : findTextClose afterGt with
        | none => simp [parseSnippetsGo, extractTextElementsGo, hfo, hsg, hfc]
        | some pair2 =>
          obtain ⟨content, rest⟩ := pair2
          simp [parseSnippetsGo, extractTextElementsGo, hfo, hsg, hfc, ih]

/-- C7 counterexample: an attribute that is present but not numeric is
fed to parseFloat and yields NaN, not the claimed 0 default: parsing a
text element with start equal to abc produces a snippet whose start is
NaN, which differs from 0. -/
theorem parseSnippets_unparsable_attr_nan :
    parseSnippets ("<text start=\"abc\" dur=\"2.0\">hi</text>".toList) =
      [⟨"hi".toList, JsNumber.nan, JsNumber.finite 2⟩]
    ∧ JsNumber.nan ≠ JsNumber.finite 0 := by
  constructor
  · decide
  · decide

/-- C7 amended: parsing emits one snippet per text element in document
order, the body HTML-entity-decoded and tag-stripped, start and
duration read from the start and dur attributes through parseFloat; a
missing attribute (the extraction regex also rejects an empty value)
defaults to 0, while a present non-numeric attribute yields NaN rather
than 0 (see the counterexample); in particular the spec example round
trips to text A & B, start 1.5, duration 2.0. -/
theorem parseSnippets_spec :
    (∀ rawData, parseSnippets rawData =
        (extractTextElements rawData).map (fun m => snippetOfMatch m.1 m.2))
    ∧ (∀ attrs content, (snippetOfMatch attrs content).text = stripTags (decodeHtml content))
    ∧ (∀ attrs content, matchAttrValue ['s', 't', 'a', 'r', 't'] attrs = none →
        (snippetOfMatch attrs content).start = JsNumber.finite 0)
    ∧ (∀ attrs content, matchAttrValue ['d', 'u', 'r'] attrs = none →
        (snippetOfMatch attrs content).duration = JsNumber.finite 0)
    ∧ parseSnippets ("<text start=\"1.5\" dur=\"2.0\">A &amp; B</text>".toList) =
        [⟨"A & B".toList, JsNumber.finite (mkRat 3 2), JsNumber.finite 2⟩] := by
  refine ⟨?_, ?_, ?_, ?_, ?_⟩
  · intro rawData
    exact parseGo_eq_extractGo rawData.length rawData
  · intro attrs content
    rfl
  · intro attrs content h
    simp only [snippetOfMatch, h, Option.getD_none]
    decide
  · intro attrs content h
    simp only [snippetOfMatch, h, Option.getD_none]
    decide
  · decide

/-- C7 witness: the defaulting conjunct applied to a concrete element
with no start attribute, together with the concrete parse it produces. -/
theorem parseSnippets_spec_example :
    (snippetOfMatch (" dur=\"2.0\"".toList) ("hi".toList)).start = JsNumber.finite 0
    ∧ parseSnippets ("<text dur=\"2.0\">hi</text>".toList) =
        [⟨"hi".toList, JsNumber.finite 0, JsNumber.finite 2⟩] := by
  constructor
  · exact parseSnippets_spec.2.2.1 (" dur=\"2.0\"".toList) ("hi".toList) (by decide)
  · decide

/-! ## Video identifier extraction
(src/unnamed/part_000 lines 29 to 54 and part_001 lines 52 to 77, two
identical copies of extractVideoId).  The WHATWG URL parser invoked by
new URL is a platform builtin; it is passed in as an oracle returning
the parsed hostname, pathname and v query parameter, or none when the
constructor throws. -/

/-- The JavaScript String.trim, over the whitespace set modelled by
jsWhitespaceChar. -/
def jsTrim (l : List Char) : List Char :=
  ((l.dropWhile jsWhitespaceChar).reverse.dropWhile jsWhitespaceChar).reverse

def isVideoIdChar (c : Char) : Bool :=
  isAsciiLetter c || isAsciiDigit c || c = '_' || c = '-'

/-- The VIDEO_ID_REGEX test: exactly 11 characters of the id class. -/
def isVideoId (l : List Char) : Bool :=
  l.length == 11 && l.all isVideoIdChar

/-- The YOUTUBE_HOSTS set. -/
def youtubeHosts : List (List Char) :=
  ["youtube.com".toList, "www.youtube.com".toList, "m.youtube.com".toList,
    "youtu.be".toList, "www.youtu.be".toList]

/-- What the code reads off the parsed URL object. -/
structure JsUrl where
  hostname : List Char
  pathname : List Char
  vParam : Option (List Char)
deriving DecidableEq

/-- The JavaScript String.split on a slash: empty leading, trailing and
middle segments are kept. -/
def splitSlash : List Char → List (List Char)
  | [] => [[]]
  | c :: cs =>
    if c = '/' then [] :: splitSlash cs
    else
      match splitSlash cs with
      | seg :: segs => (c :: seg) :: segs
      | [] => [[c]]

/-- Matching a literal regex fragment: the remainder after the
pattern, or none. -/
def stripPrefixChars : List Char → List Char → Option (List Char)
  | [], l => some l
  | _ :: _, [] => none
  | p :: ps, c :: cs => if p = c then stripPrefixChars ps cs else none

/-- The alternation of the path regex, in its source order. -/
def pathSegAlts : List (List Char) :=
  [['s', 'h', 'o', 'r', 't', 's'], ['e', 'm', 'b', 'e', 'd'], ['l', 'i', 'v', 'e']]

/-- One alternative of the path regex tried just after a slash: the
literal segment, a slash, then the capture group, a nonempty greedy run
free of slash and question mark. -/
def tryPathAlt (seg l : List Char) : Option (List Char) :=
  match stripPrefixChars (seg ++ ['/']) l with
  | none => none
  | some after =>
    if (after.takeWhile (fun ch => ch != '/' && ch != '?')).isEmpty then none
    else some (after.takeWhile (fun ch => ch != '/' && ch != '?'))

/-- A match attempt of the path regex at one position: the alternatives
in source order. -/
def pathCaptureAt (l : List Char) : Option (List Char) :=
  match tryPathAlt ['s', 'h', 'o', 'r', 't', 's'] l with
  | some capture => some capture
  | none =>
    match tryPathAlt ['e', 'm', 'b', 'e', 'd'] l with
    | some capture => some capture
    | none => tryPathAlt ['l', 'i', 'v', 'e'] l

/-- The leftmost match of the path regex, returning its capture
group. -/
def pathSegMatch : List Char → Option (List Char)
  | [] => none
  | c :: cs =>
    if c = '/' then
      match pathCaptureAt cs with
      | some capture => some capture
      | none => pathSegMatch cs
    else pathSegMatch cs

/-- The tail of extractVideoId: first pathname match tested against the
id regex, else null. -/
def pathBranch (pathname : List Char) : Option (List Char) :=
  match pathSegMatch pathname with
  | some capture => if isVideoId capture then some capture else none
  | none => none

/-- The URL part of extractVideoId: known host set, the youtu-be first
path segment branch, the v parameter branch, the path segment branch. -/
def extractVideoIdFromUrl (url : JsUrl) : Option (List Char) :=
  if !(youtubeHosts.contains url.hostname) then none
  else if url.hostname = "youtu.be".toList then
    match (splitSlash url.pathname).filter (fun seg => !seg.isEmpty) with
    | seg :: _ => if isVideoId seg then some seg else none
    | [] => none
  else
    match url.vParam with
    | some v => if isVideoId v then some v else pathBranch url.pathname
    | none => pathBranch url.pathname

/-- Source extractVideoId: trim, empty check, bare id check, then URL
parsing (none models the constructor throwing). -/
def extractVideoId (parseUrl : List Char → Option JsUrl) (input : List Char) :
    Option (List Char) :=
  let trimmed := jsTrim input
  if trimmed.isEmpty then none
  else if isVideoId trimmed then some trimmed
  else
    match parseUrl trimmed with
    | none => none
    | some url => extractVideoIdFromUrl url

lemma takeWhile_all {p : Char → Bool} :
    ∀ l : List Char, (∀ c ∈ l, p c = true) → l.takeWhile p = l := by
  intro l
  induction l with
  | nil => intro _; rfl
  | cons c cs ih =>
    intro h
    rw [List.takeWhile_cons, h c (by simp)]
    simpa using ih (fun d hd => h d (List.mem_cons_of_mem _ hd))

lemma isVideoId_chars {l : List Char} (h : isVideoId l = true) :
    ∀ c ∈ l, isVideoIdChar c = true := by
  unfold isVideoId at h
  rw [Bool.and_eq_true] at h
  exact fun c hc => List.all_eq_true.mp h.2 c hc

lemma isVideoIdChar_not_sep {c : Char} (h : isVideoIdChar c = true) :
    (c != '/' && c != '?') = true := by
  have h1 : c ≠ '/' := fun hc => by rw [hc] at h; exact absurd h (by decide)
  have h2 : c ≠ '?' := fun hc => by rw [hc] at h; exact absurd h (by decide)
  rw [Bool.and_eq_true, bne_iff_ne, bne_iff_ne]
  exact ⟨h1, h2⟩

lemma isVideoId_takeWhile {l : List Char} (h : isVideoId l = true) :
    l.takeWhile (fun ch => ch != '/' && ch != '?') = l :=
  takeWhile_all l (fun c hc => isVideoIdChar_not_sep (isVideoId_chars h c hc))

lemma isVideoId_not_empty {l : List Char} (h : isVideoId l = true) : l.isEmpty = false := by
  cases l with
  | nil => exact absurd h (by decide)
  | cons c cs => rfl

lemma splitSlash_no_slash :
    ∀ l : List Char, (∀ c ∈ l, c ≠ '/') → splitSlash l = [l] := by
  intro l
  induction l with
  | nil => intro _; rfl
  | cons c cs ih =>
    intro h
    have hc : ¬ (c = '/') := h c (by simp)
    rw [splitSlash, if_neg hc, ih (fun d hd => h d (List.mem_cons_of_mem _ hd))]

lemma pathBranch_sound {p r : List Char} (h : pathBranch p = some r) : isVideoId r = true := by
  unfold pathBranch at h
  revert h
  cases hm : pathSegMatch p with
  | none => intro h; cases h
  | some capture =>
    intro h
    have h2 : (if isVideoId capture = true then some capture else none) = some r := h
    by_cases hv : isVideoId capture = true
    · rw [if_pos hv] at h2
      exact (Option.some.inj h2) ▸ hv
    · rw [if_neg hv] at h2
      cases h2

lemma extractVideoIdFromUrl_sound {u : JsUrl} {r : List Char}
    (h : extractVideoIdFromUrl u = some r) : isVideoId r = true := by
  unfold extractVideoIdFromUrl at h
  split at h
  · cases h
  · split at h
    · revert h
      cases hsf : (splitSlash u.pathname).filter (fun seg => !seg.isEmpty) with
      | nil => intro h; cases h
      | cons seg segs =>
        intro h
        have h2 : (if isVideoId seg = true then some seg else none) = some r := h
        by_cases hv : isVideoId seg = true
        · rw [if_pos hv] at h2
          exact (Option.some.inj h2) ▸ hv
        · rw [if_neg hv] at h2
          cases h2
    · revert h
      cases hvp : u.vParam with
      | none => intro h; exact pathBranch_sound h
      | some v =>
        intro h
        have h2 : (if isVideoId v = true then some v else pathBranch u.pathname) = some r := h
        by_cases hv : isVideoId v = true
        · rw [if_pos hv] at h2
          exact (Option.some.inj h2) ▸ hv
        · rw [if_neg hv] at h2
          exact pathBranch_sound h2

/-- C8 counterexample: the code trims its input first, so a whitespace
padded bare id, which is neither an 11-character id nor a URL (the
parse oracle reflects that new URL throws on it), still extracts the
id, refuting the claim that every other string yields no match. -/
theorem extractVideoId_accepts_padded_id :
    extractVideoId (fun _ => none) (" dQw4w9WgXcQ".toList) = some ("dQw4w9WgXcQ".toList)
    ∧ isVideoId (" dQw4w9WgXcQ".toList) = false := by
  constructor
  · decide
  · decide

/-- C8 amended: extraction first trims whitespace; a trimmed valid
11-character id is returned as is (hence padded ids also match); on a
parsed URL, an unknown host yields none, a v parameter holding a valid
id on a non-youtu-be known host is returned, a youtu-be short link
returns its first path segment when it is a valid id, and a shorts,
embed or live path segment followed by a valid id is returned when no
valid v parameter precedes it; a string that does not parse as a URL
and is not a trimmed id yields none; and every returned match is a
valid 11-character id. -/
theorem extractVideoId_spec (parseUrl : List Char → Option JsUrl) (input : List Char) :
    (isVideoId (jsTrim input) = true →
        extractVideoId parseUrl input = some (jsTrim input))
    ∧ (isVideoId (jsTrim input) = false → parseUrl (jsTrim input) = none →
        extractVideoId parseUrl input = none)
    ∧ (∀ u : JsUrl, youtubeHosts.contains u.hostname = false →
        extractVideoIdFromUrl u = none)
    ∧ (∀ (u : JsUrl) (id : List Char), youtubeHosts.contains u.hostname = true →
        u.hostname ≠ "youtu.be".toList → u.vParam = some id → isVideoId id = true →
        extractVideoIdFromUrl u = some id)
    ∧ (∀ (u : JsUrl) (id : List Char), u.hostname = "youtu.be".toList →
        u.pathname = '/' :: id → isVideoId id = true →
        extractVideoIdFromUrl u = some id)
    ∧ (∀ (u : JsUrl) (seg id : List Char), youtubeHosts.contains u.hostname = true →
        u.hostname ≠ "youtu.be".toList → u.vParam = none → seg ∈ pathSegAlts →
        u.pathname = '/' :: (seg ++ '/' :: id) → isVideoId id = true →
        extractVideoIdFromUrl u = some id)
    ∧ (∀ r, extractVideoId parseUrl input = some r → isVideoId r = true) := by
  refine ⟨?_, ?_, ?_, ?_, ?_, ?_, ?_⟩
  · intro h
    simp only [extractVideoId]
    rw [if_neg (by simp [isVideoId_not_empty h]), if_pos h]
  · intro h hp
    simp only [extractVideoId]
    by_cases he : (jsTrim input).isEmpty = true
    · rw [if_pos he]
    · rw [if_neg he, if_neg (by simp [h]), hp]
  · intro u hu
    unfold extractVideoIdFromUrl
    rw [if_pos (by simpa using hu)]
  · intro u id hu hbe hv hid
    unfold extractVideoIdFromUrl
    rw [if_neg (by simpa using hu), if_neg hbe, hv]
    have h2 : (if isVideoId id = true then some id else pathBranch u.pathname) = some id := by
      rw [if_pos hid]
    exact h2
  · intro u id hbe hp hid
    unfold extractVideoIdFromUrl
    have hhosts : youtubeHosts.contains u.hostname = true := by
      rw [hbe]; decide
    rw [if_neg (by simpa using hhosts), if_pos hbe, hp]
    have hslash : ∀ c ∈ id, c ≠ '/' := by
      intro c hc hcs
      have h2 := isVideoId_chars hid c hc
      rw [hcs] at h2
      exact absurd h2 (by decide)
    have hsplit : splitSlash ('/' :: id) = [[], id] := by
      rw [splitSlash, if_pos rfl, splitSlash_no_slash id hslash]
    rw [hsplit]
    have hfilter : ([[], id] : List (List Char)).filter (fun seg => !seg.isEmpty) = [id] := by
      simp [List.filter, isVideoId_not_empty hid]
    rw [hfilter]
    have h2 : (if isVideoId id = true then some id else none) = some id := by
      rw [if_pos hid]
    exact h2
  · intro u seg id hu hbe hv hseg hp hid
    unfold extractVideoIdFromUrl
    rw [if_neg (by simpa using hu), if_neg hbe, hv]
    unfold pathBranch
    have htw := isVideoId_takeWhile hid
    have hne := isVideoId_not_empty hid
    have hcap : pathCaptureAt (seg ++ '/' :: id) = some id := by
      rcases (by simpa [pathSegAlts] using hseg :
          seg = ['s', 'h', 'o', 'r', 't', 's'] ∨ seg = ['e', 'm', 'b', 'e', 'd'] ∨
            seg = ['l', 'i', 'v', 'e']) with h | h | h <;>
        subst h <;>
        simp only [pathCaptureAt, tryPathAlt, stripPrefixChars, List.cons_append,
          List.nil_append, Char.reduceEq, reduceIte, htw, hne, Bool.false_eq_true,
          if_false]
    have hmatch : pathSegMatch ('/' :: (seg ++ '/' :: id)) = some id := by
      rw [pathSegMatch, if_pos rfl, hcap]
    rw [hp, hmatch]
    have h2 : (if isVideoId id = true then some id else none) = some id := by
      rw [if_pos hid]
    exact h2
  · intro r h
    simp only [extractVideoId] at h
    split at h
    · cases h
    · split at h
      next hid => exact (Option.some.inj h) ▸ hid
      next =>
        revert h
        cases hpu : parseUrl (jsTrim input) with
        | none => intro h; cases h
        | some u => intro h; exact extractVideoIdFromUrl_sound h

/-- C8 witness: the amended extraction at a bare id, a watch link, a
youtu-be short link and a shorts link, all carrying the same id. -/
theorem extractVideoId_spec_example :
    extractVideoId (fun _ => none) ("dQw4w9WgXcQ".toList) = some ("dQw4w9WgXcQ".toList)
    ∧ extractVideoIdFromUrl
        ⟨"www.youtube.com".toList, "/watch".toList, some ("dQw4w9WgXcQ".toList)⟩ =
        some ("dQw4w9WgXcQ".toList)
    ∧ extractVideoIdFromUrl ⟨"youtu.be".toList, "/dQw4w9WgXcQ".toList, none⟩ =
        some ("dQw4w9WgXcQ".toList)
    ∧ extractVideoIdFromUrl ⟨"www.youtube.com".toList, "/shorts/dQw4w9WgXcQ".toList, none⟩ =
        some ("dQw4w9WgXcQ".toList) := by
  refine ⟨?_, ?_, ?_, ?_⟩
  · exact (extractVideoId_spec (fun _ => none) ("dQw4w9WgXcQ".toList)).1 (by decide)
  · exact (extractVideoId_spec (fun _ => none) []).2.2.2.1
      ⟨"www.youtube.com".toList, "/watch".toList, some ("dQw4w9WgXcQ".toList)⟩
      ("dQw4w9WgXcQ".toList) (by decide) (by decide) rfl (by decide)
  · exact (extractVideoId_spec (fun _ => none) []).2.2.2.2.1
      ⟨"youtu.be".toList, "/dQw4w9WgXcQ".toList, none⟩ ("dQw4w9WgXcQ".toList)
      rfl (by decide) (by decide)
  · exact (extractVideoId_spec (fun _ => none) []).2.2.2.2.2.1
      ⟨"www.youtube.com".toList, "/shorts/dQw4w9WgXcQ".toList, none⟩
      (['s', 'h', 'o', 'r', 't', 's']) ("dQw4w9WgXcQ".toList)
      (by decide) (by decide) rfl (by decide) (by decide) (by decide)

end FactCheck
